import Mathlib

/-!
Shallow embedding of the nutoff-wallet proof/quote ledger
(`src/db.ts`, `src/service.ts`) and its quote monitoring engine.

The SQLite tables become lists of rows; every SQL statement of `db.ts`
is translated to the corresponding list operation (SELECT → filter,
UPDATE → map, INSERT OR REPLACE → delete-conflicting-then-append).
The Mint Protocol Client (`@cashu/cashu-ts`) is external: each wallet
operation takes the client's response for the calls it makes as an
explicit argument, and `throw` becomes an `Except` error value paired
with the database state at the moment of the throw.
-/

namespace Nutoff

/-- Lifecycle state of a stored proof (`state` column of `cashu_proofs`,
CHECK (state IN ('inflight','ready','spent'))). -/
inductive ProofState where
  | ready
  | inflight
  | spent
deriving DecidableEq, Repr

/-- Forward order on proof lifecycle states: ready(0) → inflight(1) → spent(2). -/
def ProofState.rank : ProofState → Nat
  | .ready => 0
  | .inflight => 1
  | .spent => 2

/-- State of a mint quote (`state` column of `cashu_mint_quotes`,
CHECK (state IN ('UNPAID','PAID','ISSUED'))). -/
inductive QuoteState where
  | UNPAID
  | PAID
  | ISSUED
deriving DecidableEq, Repr

/-- A proof object as produced by the Mint Protocol Client
(`Proof` of `@cashu/cashu-ts`): keyset id, amount, secret, signature,
optional DLEQ blob and optional witness blob (already serialized). -/
structure CashuProof where
  id : String
  amount : Nat
  secret : String
  C : String
  dleqJson : Option String := none
  witnessJson : Option String := none
deriving DecidableEq, Repr

/-- A row of the `cashu_proofs` table (PRIMARY KEY (mintUrl, secret)). -/
structure ProofRow where
  mintUrl : String
  id : String
  amount : Nat
  secret : String
  C : String
  dleqJson : Option String
  witnessJson : Option String
  state : ProofState
  createdAt : Nat
deriving DecidableEq, Repr

/-- A row of the `cashu_mint_quotes` table (PRIMARY KEY (mintUrl, quote)). -/
structure QuoteRow where
  mintUrl : String
  quote : String
  state : QuoteState
  request : String
  amount : Nat
  unit : String
  expiry : Nat
  pubkey : Option String
deriving DecidableEq, Repr

/-- The persistent wallet database (class `WalletDb` of `src/db.ts`):
the two tables created by migration `001_initial`. -/
structure WalletDb where
  proofs : List ProofRow
  mintQuotes : List QuoteRow
deriving DecidableEq, Repr

namespace WalletDb

/-- `WalletDb.getProofs(mintUrl, state?)`:
`SELECT * FROM cashu_proofs WHERE mintUrl = ?` plus `AND state = ?`
when the optional state filter is given. -/
def getProofs (db : WalletDb) (mintUrl : String) (state : Option ProofState) :
    List ProofRow :=
  db.proofs.filter (fun r =>
    decide (r.mintUrl = mintUrl) &&
      match state with
      | some s => decide (r.state = s)
      | none => true)

/-- The row written for one client proof by `WalletDb.saveProofs`. -/
def rowOfProof (mintUrl : String) (p : CashuProof) (state : ProofState)
    (createdAt : Nat) : ProofRow :=
  { mintUrl := mintUrl
    id := p.id
    amount := p.amount
    secret := p.secret
    C := p.C
    dleqJson := p.dleqJson
    witnessJson := p.witnessJson
    state := state
    createdAt := createdAt }

/-- One `INSERT OR REPLACE INTO cashu_proofs` statement: SQLite deletes any
row conflicting on the primary key (mintUrl, secret) and inserts the new row. -/
def insertOrReplaceProof (db : WalletDb) (row : ProofRow) : WalletDb :=
  let kept := db.proofs.filter
    (fun r => decide (¬(r.mintUrl = row.mintUrl ∧ r.secret = row.secret)))
  { db with proofs := kept ++ [row] }

/-- `WalletDb.saveProofs(proofs, mintUrl, state)`: one INSERT OR REPLACE per
proof, all at the same timestamp, inside one transaction. -/
def saveProofs (db : WalletDb) (proofs : List CashuProof) (mintUrl : String)
    (state : ProofState) (timestamp : Nat) : WalletDb :=
  proofs.foldl (fun d p => insertOrReplaceProof d (rowOfProof mintUrl p state timestamp)) db

/-- `WalletDb.updateProofState(secret, state)`:
`UPDATE cashu_proofs SET state = ? WHERE secret = ?` — keyed by secret
alone, with no mintUrl in the WHERE clause. -/
def updateProofState (db : WalletDb) (secret : String) (state : ProofState) :
    WalletDb :=
  { db with proofs :=
      db.proofs.map (fun r => if r.secret = secret then { r with state := state } else r) }

/-- `WalletDb.getBalance(mintUrl?)`:
`SELECT SUM(amount) FROM cashu_proofs WHERE state = 'ready'` plus
`AND mintUrl = ?` when given; a NULL sum is reported as 0. -/
def getBalance (db : WalletDb) (mintUrl : Option String) : Nat :=
  ((db.proofs.filter (fun r =>
      decide (r.state = ProofState.ready) &&
        match mintUrl with
        | some m => decide (r.mintUrl = m)
        | none => true)).map (fun r => r.amount)).sum

/-- `WalletDb.saveMintQuote`: `INSERT OR REPLACE INTO cashu_mint_quotes`,
keyed by (mintUrl, quote). -/
def saveMintQuote (db : WalletDb) (q : QuoteRow) : WalletDb :=
  let kept := db.mintQuotes.filter
    (fun r => decide (¬(r.mintUrl = q.mintUrl ∧ r.quote = q.quote)))
  { db with mintQuotes := kept ++ [q] }

/-- `WalletDb.updateMintQuoteState(mintUrl, quote, state)`:
`UPDATE cashu_mint_quotes SET state = ? WHERE mintUrl = ? AND quote = ?`. -/
def updateMintQuoteState (db : WalletDb) (mintUrl : String) (quote : String)
    (state : QuoteState) : WalletDb :=
  { db with mintQuotes :=
      db.mintQuotes.map (fun r =>
        if r.mintUrl = mintUrl ∧ r.quote = quote then { r with state := state } else r) }

/-- Look up the row with primary key (mintUrl, secret). -/
def findProofRow (db : WalletDb) (mintUrl secret : String) : Option ProofRow :=
  db.proofs.find? (fun r => decide (r.mintUrl = mintUrl) && decide (r.secret = secret))

/-- The proofs table respects its primary key: no two rows share (mintUrl, secret). -/
def NodupKeys (db : WalletDb) : Prop :=
  db.proofs.Pairwise (fun a b => a.mintUrl ≠ b.mintUrl ∨ a.secret ≠ b.secret)

end WalletDb

/-- The error taxonomy of `CashuWalletService`: each constructor stands for
one family of `throw new Error(...)` messages in `src/service.ts`. -/
inductive WalletError where
  | invalidAmount
  | missingParameter
  | protocolError (msg : String)
  | insufficientBalance (got need : Nat)
  | emptyResult
deriving DecidableEq, Repr

/-- Response of the Protocol Client's `checkMintQuote`: an optional error
field (checked first by the service) plus the authoritative state and amount. -/
structure CheckQuoteResp where
  error : Option String
  state : QuoteState
  amount : Nat
deriving DecidableEq, Repr

/-- Result of `CashuWalletService.checkMintQuote` (`MintQuoteStatusResult`). -/
structure MintQuoteStatusResult where
  quoteId : String
  state : QuoteState
  amount : Nat
  isPaid : Bool
  isIssued : Bool
  canMint : Bool
deriving DecidableEq, Repr

/-- Result of `CashuWalletService.mintProofs` (`MintProofsResult`). -/
structure MintProofsResult where
  proofs : List CashuProof
  totalAmount : Nat
  proofCount : Nat
  proofAmounts : List Nat
  quoteId : String
deriving DecidableEq, Repr

/-- The `{keep, send}` partition returned by the Protocol Client's `send`. -/
structure SendSplit where
  keep : List CashuProof
  send : List CashuProof
deriving DecidableEq, Repr

/-- Result of `CashuWalletService.sendEcash` (`SendEcashResult`; the encoded
token string is opaque output of the external encoder and is not modelled). -/
structure SendEcashResult where
  sentAmount : Nat
  keepAmount : Nat
  sentProofs : List CashuProof
  keepProofs : List CashuProof
deriving DecidableEq, Repr

/-- Result of `CashuWalletService.receiveEcash` (`ReceiveEcashResult`). -/
structure ReceiveEcashResult where
  receivedProofs : List CashuProof
  totalAmount : Nat
  proofCount : Nat
  proofAmounts : List Nat
deriving DecidableEq, Repr

/-- Per-proof redemption status reported by the Protocol Client's
`checkProofsStates` (`CheckStateEnum` of `@cashu/cashu-ts`). -/
inductive CheckProofState where
  | SPENT
  | UNSPENT
  | PENDING
deriving DecidableEq, Repr

/-- Result of `CashuWalletService.cleanPendingProofs` (`CleanPendingProofsResult`). -/
structure CleanPendingProofsResult where
  cleanedCount : Nat
  cleanedAmount : Nat
  totalChecked : Nat
  remainingPending : Nat
deriving DecidableEq, Repr

/-- Result of `CashuWalletService.getBalance` (`BalanceResult`). -/
structure BalanceResult where
  balance : Nat
  pendingBalance : Nat
  total : Nat
  pendingProofsCount : Nat
deriving DecidableEq, Repr

/-- Response of the Protocol Client's `createMeltQuote`. -/
structure MeltQuoteResp where
  error : Option String
  quote : String
  amount : Nat
  feeReserve : Nat
deriving DecidableEq, Repr

/-- State of a melt quote as reported by `checkMeltQuote`. -/
inductive MeltQState where
  | PAID
  | UNPAID
  | PENDING
deriving DecidableEq, Repr

/-- Response of the Protocol Client's `checkMeltQuote`. -/
structure MeltCheckResp where
  state : MeltQState
  preimage : Option String
deriving DecidableEq, Repr

/-- Result of `CashuWalletService.payInvoice` (`PayInvoiceResult`). -/
structure PayInvoiceResult where
  meltQuoteId : String
  amountPaid : Nat
  feeReserve : Nat
  totalAmount : Nat
  paymentPreimage : Option String
  remainingBalance : Nat
  changeProofs : List CashuProof
  sentProofs : List CashuProof
  keptProofs : List CashuProof
deriving DecidableEq, Repr

namespace CashuWalletService

/-- `sumProofs`: reduce over proof amounts. -/
def sumProofs (proofs : List CashuProof) : Nat :=
  (proofs.map (fun p => p.amount)).sum

/-- Sum of the amounts of a list of stored proof rows (the same reduce,
applied to rows read back from the database). -/
def sumRows (rows : List ProofRow) : Nat :=
  (rows.map (fun r => r.amount)).sum

/-- `CashuWalletService.checkMintQuote(quoteId)`: validates the id, queries
the Protocol Client (response passed in as `resp`), surfaces a client error,
otherwise writes the authoritative state into the quote store and returns
the status flags with `canMint = isPaid && !isIssued`. -/
def checkMintQuote (mintUrl : String) (db : WalletDb) (quoteId : String)
    (resp : CheckQuoteResp) :
    WalletDb × Except WalletError MintQuoteStatusResult :=
  if quoteId = "" then
    (db, .error .missingParameter)
  else
    match resp.error with
    | some e => (db, .error (.protocolError e))
    | none =>
      let db1 := db.updateMintQuoteState mintUrl quoteId resp.state
      let isPaid := decide (resp.state = QuoteState.PAID)
      let isIssued := decide (resp.state = QuoteState.ISSUED)
      (db1, .ok
        { quoteId := quoteId
          state := resp.state
          amount := resp.amount
          isPaid := isPaid
          isIssued := isIssued
          canMint := isPaid && !isIssued })

/-- `CashuWalletService.mintProofs(quoteId, amount)`: validates both
arguments (JS falsiness: empty id or zero amount), requests issuance from
the Protocol Client (`resp`), fails with EmptyResult on an empty proof list,
otherwise persists the proofs as ready and marks the quote ISSUED. -/
def mintProofs (mintUrl : String) (db : WalletDb) (quoteId : String)
    (amount : Nat) (resp : Except String (List CashuProof)) (now : Nat) :
    WalletDb × Except WalletError MintProofsResult :=
  if quoteId = "" ∨ amount = 0 then
    (db, .error .missingParameter)
  else
    match resp with
    | .error e => (db, .error (.protocolError e))
    | .ok proofs =>
      if proofs = [] then
        (db, .error .emptyResult)
      else
        let db1 := db.saveProofs proofs mintUrl .ready now
        let db2 := db1.updateMintQuoteState mintUrl quoteId .ISSUED
        (db2, .ok
          { proofs := proofs
            totalAmount := sumProofs proofs
            proofCount := proofs.length
            proofAmounts := proofs.map (fun p => p.amount)
            quoteId := quoteId })

/-- `CashuWalletService.sendEcash(amount)`: validates the amount, reads the
ready proofs of the configured mint, fails with InsufficientBalance if their
sum is below the amount, delegates the whole ready set to the Protocol
Client's `send` (`sendFn`, called with `includeFees: true`), then in one
transaction marks every selected proof spent (by secret), persists `keep`
as ready and `send` as inflight. -/
def sendEcash (mintUrl : String) (db : WalletDb) (amount : Nat)
    (sendFn : Nat → List ProofRow → Except String SendSplit) (now : Nat) :
    WalletDb × Except WalletError SendEcashResult :=
  if amount = 0 then
    (db, .error .invalidAmount)
  else
    let availableProofs := db.getProofs mintUrl (some .ready)
    let totalBalance := sumRows availableProofs
    if totalBalance < amount then
      (db, .error (.insufficientBalance totalBalance amount))
    else
      match sendFn amount availableProofs with
      | .error e => (db, .error (.protocolError e))
      | .ok split =>
        let db1 := availableProofs.foldl
          (fun d r => d.updateProofState r.secret .spent) db
        let db2 := db1.saveProofs split.keep mintUrl .ready now
        let db3 := db2.saveProofs split.send mintUrl .inflight now
        (db3, .ok
          { sentAmount := sumProofs split.send
            keepAmount := sumProofs split.keep
            sentProofs := split.send
            keepProofs := split.keep })

/-- `CashuWalletService.receiveEcash(token)`: validates the token string,
decodes/swaps it via the Protocol Client (`resp`), fails with EmptyResult on
an empty proof list, and persists the received proofs as ready. -/
def receiveEcash (mintUrl : String) (db : WalletDb) (tokenString : String)
    (resp : Except String (List CashuProof)) (now : Nat) :
    WalletDb × Except WalletError ReceiveEcashResult :=
  if tokenString = "" then
    (db, .error .missingParameter)
  else
    match resp with
    | .error e => (db, .error (.protocolError e))
    | .ok proofs =>
      if proofs = [] then
        (db, .error .emptyResult)
      else
        (db.saveProofs proofs mintUrl .ready now, .ok
          { receivedProofs := proofs
            totalAmount := sumProofs proofs
            proofCount := proofs.length
            proofAmounts := proofs.map (fun p => p.amount) })

/-- One iteration of the `cleanPendingProofs` loop over `proofStates`:
a pending proof whose paired state is SPENT is transitioned to spent and
counted; UNSPENT (or PENDING) pairs are left untouched. The loop index runs
over the states array and indexes the pending list, which is exactly a fold
over their zip. -/
def cleanStep (acc : WalletDb × Nat × Nat) (pair : ProofRow × CheckProofState) :
    WalletDb × Nat × Nat :=
  if pair.2 = CheckProofState.SPENT then
    (acc.1.updateProofState pair.1.secret .spent, acc.2.1 + 1, acc.2.2 + pair.1.amount)
  else
    acc

/-- `CashuWalletService.cleanPendingProofs()`: reads all inflight proofs of
the configured mint; returns zero counts if there are none; batch-queries the
Protocol Client (`resp`); a failed batch query is swallowed (zero cleaned);
otherwise pairs proofs with reported states by index and transitions each
SPENT one to spent. Always returns normally. -/
def cleanPendingProofs (mintUrl : String) (db : WalletDb)
    (resp : Except String (List CheckProofState)) :
    WalletDb × CleanPendingProofsResult :=
  let pendingProofs := db.getProofs mintUrl (some .inflight)
  if pendingProofs = [] then
    (db, { cleanedCount := 0, cleanedAmount := 0, totalChecked := 0, remainingPending := 0 })
  else
    match resp with
    | .error _ =>
      (db, { cleanedCount := 0
             cleanedAmount := 0
             totalChecked := pendingProofs.length
             remainingPending := pendingProofs.length })
    | .ok proofStates =>
      let folded := (pendingProofs.zip proofStates).foldl cleanStep (db, 0, 0)
      (folded.1,
        { cleanedCount := folded.2.1
          cleanedAmount := folded.2.2
          totalChecked := pendingProofs.length
          remainingPending := pendingProofs.length - folded.2.1 })

/-- `CashuWalletService.getBalance()`: reads the inflight proofs and the
ready balance of the configured mint, and if any inflight proofs exist runs
the cleanup sweep before returning; the returned figures are the ones read
on entry, with `total = balance + pendingBalance`. -/
def getBalance (mintUrl : String) (db : WalletDb)
    (cleanResp : Except String (List CheckProofState)) :
    WalletDb × BalanceResult :=
  let pendingProofs := db.getProofs mintUrl (some .inflight)
  let balance := db.getBalance (some mintUrl)
  let pendingBalance := sumRows pendingProofs
  let db1 := if pendingProofs.length > 0 then (cleanPendingProofs mintUrl db cleanResp).1 else db
  (db1,
    { balance := balance
      pendingBalance := pendingBalance
      total := balance + pendingBalance
      pendingProofsCount := pendingProofs.length })

/-- `CashuWalletService.payInvoice(invoice)`: validates the invoice,
obtains a melt quote (`mq`), selects the whole ready set, fails with
InsufficientBalance below amount + fee reserve, splits via the Protocol
Client's `send` (`sendFn`), executes the melt (`meltResp`, yielding change),
then in one transaction marks every selected proof spent, persists `keep` as
ready, `send` as inflight and nonempty `change` as ready; finally performs
one delayed settlement re-check (`chk`) whose PAID state supplies the
preimage. A failed re-check propagates after the commit. -/
def payInvoice (mintUrl : String) (db : WalletDb) (invoice : String)
    (mq : MeltQuoteResp)
    (sendFn : Nat → List ProofRow → Except String SendSplit)
    (meltResp : Except String (List CashuProof))
    (chk : Except String MeltCheckResp) (now : Nat) :
    WalletDb × Except WalletError PayInvoiceResult :=
  if invoice = "" then
    (db, .error .missingParameter)
  else
    match mq.error with
    | some e => (db, .error (.protocolError e))
    | none =>
      let amountToMelt := mq.amount + mq.feeReserve
      let availableProofs := db.getProofs mintUrl (some .ready)
      let totalBalance := sumRows availableProofs
      if totalBalance < amountToMelt then
        (db, .error (.insufficientBalance totalBalance amountToMelt))
      else
        match sendFn amountToMelt availableProofs with
        | .error e => (db, .error (.protocolError e))
        | .ok split =>
          match meltResp with
          | .error e => (db, .error (.protocolError e))
          | .ok change =>
            let db1 := availableProofs.foldl
              (fun d r => d.updateProofState r.secret .spent) db
            let db2 := db1.saveProofs split.keep mintUrl .ready now
            let db3 := db2.saveProofs split.send mintUrl .inflight now
            let db4 := if change = [] then db3 else db3.saveProofs change mintUrl .ready now
            match chk with
            | .error e => (db4, .error (.protocolError e))
            | .ok mc =>
              let preimage :=
                if mc.state = MeltQState.PAID then mc.preimage else none
              (db4, .ok
                { meltQuoteId := mq.quote
                  amountPaid := mq.amount
                  feeReserve := mq.feeReserve
                  totalAmount := amountToMelt
                  paymentPreimage := preimage
                  remainingBalance := db4.getBalance (some mintUrl)
                  changeProofs := change
                  sentProofs := split.send
                  keptProofs := split.keep })

end CashuWalletService

/-- An entry of the `QuotePoolManager`'s tracked map (`QuotePoolItem`). -/
structure QuotePoolItem where
  quoteId : String
  amount : Nat
  expiry : Nat
deriving DecidableEq, Repr

/-- The `QuotePoolManager`'s own state: the tracked quote map (a JS `Map`,
kept in insertion order with unique keys) and the `isRunning` flag that
tracks whether the interval timer is active. -/
structure PoolState where
  quotes : List QuotePoolItem
  isRunning : Bool
deriving DecidableEq, Repr

namespace QuotePoolManager

/-- `maxConcurrentChecks` default (config fallback `|| 5`). -/
def maxConcurrentChecks : Nat := 5

/-- `Map.set` semantics: replace in place when the key exists, else append. -/
def mapSet (quotes : List QuotePoolItem) (item : QuotePoolItem) :
    List QuotePoolItem :=
  if quotes.any (fun q => decide (q.quoteId = item.quoteId)) then
    quotes.map (fun q => if q.quoteId = item.quoteId then item else q)
  else
    quotes ++ [item]

/-- `QuotePoolManager.start()`: no-op when already running, else set the
running flag (and install the interval timer). -/
def start (s : PoolState) : PoolState :=
  if s.isRunning then s else { s with isRunning := true }

/-- `QuotePoolManager.stop()`: no-op when not running, else clear the
running flag (and clear the interval timer). -/
def stop (s : PoolState) : PoolState :=
  if s.isRunning then { s with isRunning := false } else s

/-- `QuotePoolManager.addQuote`: insert into the map, then start the timer
if it is not running. -/
def addQuote (s : PoolState) (quoteId : String) (amount expiry : Nat) :
    PoolState :=
  let s1 := { s with quotes := mapSet s.quotes ⟨quoteId, amount, expiry⟩ }
  if s1.isRunning then s1 else start s1

/-- `QuotePoolManager.removeQuote`: delete from the map, then stop the
timer if the map became empty. -/
def removeQuote (s : PoolState) (quoteId : String) : PoolState :=
  let s1 := { s with quotes := s.quotes.filter (fun q => decide (¬ q.quoteId = quoteId)) }
  if s1.quotes.length = 0 then stop s1 else s1

/-- `QuotePoolManager.cleanupExpiredQuotes`: delete every tracked quote whose
expiry lies strictly in the past, then stop the timer if the map is empty. -/
def cleanupExpiredQuotes (s : PoolState) (now : Nat) : PoolState :=
  let s1 := { s with quotes := s.quotes.filter (fun q => decide (¬ now > q.expiry)) }
  if s1.quotes.length = 0 then stop s1 else s1

/-- The pool-mutating entry points reachable from outside a tick:
`addQuote` (from createMintQuote), `removeQuote` (from checkAndMintQuote)
and the per-tick expiry purge. -/
inductive PoolOp where
  | add (quoteId : String) (amount expiry : Nat)
  | remove (quoteId : String)
  | cleanup (now : Nat)
deriving DecidableEq, Repr

/-- Apply one pool operation. -/
def applyPoolOp (s : PoolState) : PoolOp → PoolState
  | .add quoteId amount expiry => addQuote s quoteId amount expiry
  | .remove quoteId => removeQuote s quoteId
  | .cleanup now => cleanupExpiredQuotes s now

/-- Initial pool state: empty map, timer not running. -/
def initPool : PoolState := { quotes := [], isRunning := false }

/-- Timer/occupancy coupling: the interval timer is active exactly when the
tracked map is non-empty. -/
def TimerInv (s : PoolState) : Prop :=
  s.isRunning = true ↔ s.quotes ≠ []

end QuotePoolManager

/-- Program counter of one in-flight `checkAndMintQuote` invocation:
it has been spawned, or its `checkMintQuote` call returned the recorded
observation, or its `mintProofs` call succeeded. -/
inductive TaskPC where
  | started
  | checked (observed : QuoteState)
  | minted
deriving DecidableEq, Repr

/-- One in-flight `checkAndMintQuote` task. -/
structure EngineTask where
  item : QuotePoolItem
  pc : TaskPC
deriving DecidableEq, Repr

/-- Global state of the monitoring engine run: the pool manager state, the
remote mint's authoritative per-quote state (ids the mint never assigned
read as UNPAID), the in-flight tasks of all (possibly overlapping) ticks,
and the log of successful `mintProofs` calls issued by the engine. -/
structure EngineState where
  pool : PoolState
  remote : String → QuoteState
  tasks : List EngineTask
  mintLog : List String

namespace Engine

open QuotePoolManager

/-- Authoritative state of a quote at the remote mint. -/
def remoteState (remote : String → QuoteState) (quoteId : String) :
    QuoteState :=
  remote quoteId

/-- Set the remote state of one quote id. -/
def setRemote (remote : String → QuoteState) (quoteId : String)
    (st : QuoteState) : String → QuoteState :=
  fun q => if q = quoteId then st else remote q

/-- The synchronous prefix of `checkQuotes` (one tick firing): purge expired
quotes, then snapshot up to `maxConcurrentChecks` tracked quotes and spawn a
`checkAndMintQuote` task for each; the spawned checks of overlapping ticks
then interleave freely. -/
def spawnTick (s : EngineState) (now : Nat) : EngineState :=
  let pool1 := cleanupExpiredQuotes s.pool now
  let scheduled := pool1.quotes.take maxConcurrentChecks
  { s with
      pool := pool1
      tasks := s.tasks ++ scheduled.map (fun q => ⟨q, .started⟩) }

/-- Interleaved small-step semantics of the engine: timer ticks spawning
concurrent `checkAndMintQuote` tasks, external events (a fresh quote being
registered, an invoice being paid), and the atomic sub-steps of each task
(`checkMintQuote` observing the remote state, a successful or failed
`mintProofs`, and the follow-up pool removal). -/
inductive Step : EngineState → EngineState → Prop where
  | register (s : EngineState) (quoteId : String) (amount expiry : Nat)
      (hfresh : remoteState s.remote quoteId = .UNPAID) :
      Step s { s with
        pool := addQuote s.pool quoteId amount expiry
        remote := setRemote s.remote quoteId .UNPAID }
  | pay (s : EngineState) (quoteId : String)
      (hunpaid : remoteState s.remote quoteId = .UNPAID) :
      Step s { s with remote := setRemote s.remote quoteId .PAID }
  | tick (s : EngineState) (now : Nat) :
      Step s (spawnTick s now)
  | check (s : EngineState) (pre post : List EngineTask) (item : QuotePoolItem)
      (h : s.tasks = pre ++ ⟨item, .started⟩ :: post) :
      Step s { s with
        tasks := pre ++ ⟨item, .checked (remoteState s.remote item.quoteId)⟩ :: post }
  | checkFail (s : EngineState) (pre post : List EngineTask) (item : QuotePoolItem)
      (h : s.tasks = pre ++ ⟨item, .started⟩ :: post) :
      Step s { s with tasks := pre ++ post }
  | mint (s : EngineState) (pre post : List EngineTask) (item : QuotePoolItem)
      (h : s.tasks = pre ++ ⟨item, .checked .PAID⟩ :: post) :
      Step s { s with
        tasks := pre ++ ⟨item, .minted⟩ :: post
        remote := setRemote s.remote item.quoteId .ISSUED
        mintLog := s.mintLog ++ [item.quoteId] }
  | mintFail (s : EngineState) (pre post : List EngineTask) (item : QuotePoolItem)
      (h : s.tasks = pre ++ ⟨item, .checked .PAID⟩ :: post) :
      Step s { s with tasks := pre ++ post }
  | finishMinted (s : EngineState) (pre post : List EngineTask) (item : QuotePoolItem)
      (h : s.tasks = pre ++ ⟨item, .minted⟩ :: post) :
      Step s { s with
        pool := removeQuote s.pool item.quoteId
        tasks := pre ++ post }
  | finishIssued (s : EngineState) (pre post : List EngineTask) (item : QuotePoolItem)
      (h : s.tasks = pre ++ ⟨item, .checked .ISSUED⟩ :: post) :
      Step s { s with
        pool := removeQuote s.pool item.quoteId
        tasks := pre ++ post }
  | finishUnpaid (s : EngineState) (pre post : List EngineTask) (item : QuotePoolItem)
      (h : s.tasks = pre ++ ⟨item, .checked .UNPAID⟩ :: post) :
      Step s { s with tasks := pre ++ post }

/-- Initial engine state: empty pool, no remote quotes, no tasks, no mints. -/
def initEngine : EngineState :=
  { pool := QuotePoolManager.initPool
    remote := fun _ => .UNPAID
    tasks := []
    mintLog := [] }

/-- Reachability along the interleaved step relation. -/
def Reachable (s : EngineState) : Prop :=
  Relation.ReflTransGen Step initEngine s

/-- State of the serialized engine semantics, in which each tick's checks
run to completion before anything else happens (no in-flight task set). -/
structure SeqEngineState where
  pool : PoolState
  remote : String → QuoteState
  mintLog : List String

/-- One serialized `checkAndMintQuote`: observe the remote state; if PAID
(paid and not issued), attempt `mintProofs` — on success log the mint, the
remote quote becomes ISSUED and the quote is removed from the pool; on error
the quote stays tracked; if ISSUED, remove without minting; if UNPAID, leave
tracked. -/
def runCheckAndMint (s : SeqEngineState) (item : QuotePoolItem)
    (mintOk : Bool) : SeqEngineState :=
  match remoteState s.remote item.quoteId with
  | .PAID =>
    if mintOk then
      { pool := removeQuote s.pool item.quoteId
        remote := setRemote s.remote item.quoteId .ISSUED
        mintLog := s.mintLog ++ [item.quoteId] }
    else
      s
  | .ISSUED => { s with pool := removeQuote s.pool item.quoteId }
  | .UNPAID => s

/-- One serialized tick: purge expired quotes, snapshot up to
`maxConcurrentChecks` tracked quotes, and run their checks to completion in
order (`mintOk` telling which `mintProofs` calls the remote lets succeed). -/
def runTickSeq (s : SeqEngineState) (now : Nat) (mintOk : String → Bool) :
    SeqEngineState :=
  let pool1 := cleanupExpiredQuotes s.pool now
  let scheduled := pool1.quotes.take maxConcurrentChecks
  scheduled.foldl (fun t q => runCheckAndMint t q (mintOk q.quoteId))
    { s with pool := pool1 }

/-- The serialized run's events: quote registration (with a mint-fresh
quote id), external invoice payment, and whole ticks. -/
inductive SeqOp where
  | register (quoteId : String) (amount expiry : Nat)
  | pay (quoteId : String)
  | tick (now : Nat) (mintOk : String → Bool)

/-- Apply one serialized event; `register` of an id the mint has touched
before and `pay` of a quote that is not UNPAID are no-ops (mint-assigned
ids are fresh, and a settled invoice cannot become unpaid again). -/
def applySeqOp (s : SeqEngineState) : SeqOp → SeqEngineState
  | .register quoteId amount expiry =>
    if remoteState s.remote quoteId = .UNPAID then
      { s with
          pool := addQuote s.pool quoteId amount expiry
          remote := setRemote s.remote quoteId .UNPAID }
    else
      s
  | .pay quoteId =>
    if remoteState s.remote quoteId = .UNPAID then
      { s with remote := setRemote s.remote quoteId .PAID }
    else
      s
  | .tick now mintOk => runTickSeq s now mintOk

/-- Initial serialized state. -/
def initSeq : SeqEngineState :=
  { pool := QuotePoolManager.initPool, remote := fun _ => .UNPAID, mintLog := [] }

end Engine

/-- Fold of `updateProofState _ spent` over a list of secrets — the shape of
the mark-selected-proofs-spent loop inside the send/pay transactions. -/
def spendAll (db : WalletDb) (secs : List String) : WalletDb :=
  secs.foldl (fun d s => d.updateProofState s .spent) db

/-- Every row of `post` is a row of `pre`, possibly with its state
overwritten to spent (the only kind of change `updateProofState _ spent`
can make). -/
def SpentOnly (pre post : WalletDb) : Prop :=
  ∀ r2 ∈ post.proofs, ∃ r ∈ pre.proofs,
    r2 = r ∨ r2 = { r with state := ProofState.spent }

/-- The lifecycle-forward relation between two database states: any two
rows with the same primary key (mintUrl, secret) on the two sides are
ordered along ready → inflight → spent. -/
def ForwardDb (pre post : WalletDb) : Prop :=
  ∀ r ∈ pre.proofs, ∀ r2 ∈ post.proofs,
    r.mintUrl = r2.mintUrl → r.secret = r2.secret → r.state.rank ≤ r2.state.rank

/-- One public wallet operation together with the Protocol Client responses
consumed during it (`sendEcash`/`payInvoice` take the split as a constant
response). -/
inductive WalletOp where
  | mintOp (quoteId : String) (amount : Nat)
      (resp : Except String (List CashuProof)) (now : Nat)
  | sendOp (amount : Nat) (resp : Except String SendSplit) (now : Nat)
  | receiveOp (tok : String) (resp : Except String (List CashuProof)) (now : Nat)
  | payOp (invoice : String) (mq : MeltQuoteResp) (resp : Except String SendSplit)
      (meltResp : Except String (List CashuProof))
      (chk : Except String MeltCheckResp) (now : Nat)
  | cleanOp (resp : Except String (List CheckProofState))

/-- The database state an operation leaves behind (also on a thrown error,
which carries whatever had been committed by then). -/
def applyWalletOp (mintUrl : String) (db : WalletDb) : WalletOp → WalletDb
  | .mintOp q a resp now => (CashuWalletService.mintProofs mintUrl db q a resp now).1
  | .sendOp a resp now =>
    (CashuWalletService.sendEcash mintUrl db a (fun _ _ => resp) now).1
  | .receiveOp t resp now => (CashuWalletService.receiveEcash mintUrl db t resp now).1
  | .payOp i mq resp meltResp chk now =>
    (CashuWalletService.payInvoice mintUrl db i mq (fun _ _ => resp) meltResp chk now).1
  | .cleanOp resp => (CashuWalletService.cleanPendingProofs mintUrl db resp).1

/-- Persisting the proofs `ps` with state `st` at `mintUrl` cannot move any
existing row backward: every stored row sharing a written primary key is at
most as far along as `st`. -/
def WriteOk (db : WalletDb) (mintUrl : String) (st : ProofState)
    (ps : List CashuProof) : Prop :=
  ∀ p ∈ ps, ∀ r ∈ db.proofs,
    r.mintUrl = mintUrl → r.secret = p.secret → r.state.rank ≤ st.rank

/-- Secret-freshness discipline for one operation: the proofs the Protocol
Client hands back (minted, received, keep, send, change) never reuse the
(mint, secret) key of a stored row that is further along than the state they
are about to be persisted with. -/
def FreshOk (mintUrl : String) (db : WalletDb) : WalletOp → Prop
  | .mintOp _ _ (.ok proofs) _ => WriteOk db mintUrl .ready proofs
  | .sendOp _ (.ok split) _ =>
    WriteOk db mintUrl .ready split.keep ∧ WriteOk db mintUrl .inflight split.send
  | .receiveOp _ (.ok proofs) _ => WriteOk db mintUrl .ready proofs
  | .payOp _ _ (.ok split) (.ok change) _ _ =>
    WriteOk db mintUrl .ready split.keep ∧ WriteOk db mintUrl .inflight split.send ∧
      WriteOk db mintUrl .ready change
  | _ => True

/-- Overwrite to spent every row whose secret lies in `secs` — the net
effect on the proofs table of the mark-spent loops. -/
def markSpent (db : WalletDb) (secs : List String) : WalletDb :=
  { db with proofs :=
      db.proofs.map (fun r =>
        if r.secret ∈ secs then { r with state := ProofState.spent } else r) }

/-- The pending rows whose paired batch-query answer was SPENT. -/
def spentOf (pairs : List (ProofRow × CheckProofState)) : List ProofRow :=
  (pairs.filter (fun pr => decide (pr.2 = CheckProofState.SPENT))).map (fun pr => pr.1)

/-- The secrets of a list of stored rows. -/
def secretsOf (rows : List ProofRow) : List String :=
  rows.map (fun r => r.secret)

/-- The secrets of a list of client proofs. -/
def proofSecrets (ps : List CashuProof) : List String :=
  ps.map (fun p => p.secret)

/-- Per-quote at-most-once-mint invariant of the serialized engine run:
no quote id occurs twice in the mint log, and a logged quote is ISSUED at
the remote mint. -/
def SeqInv (s : Engine.SeqEngineState) : Prop :=
  ∀ q : String, s.mintLog.count q ≤ 1 ∧
    (q ∈ s.mintLog → Engine.remoteState s.remote q = .ISSUED)

section ConcreteData

/-- A concrete client proof used in counterexamples and witnesses. -/
def cxProof (secret : String) (amount : Nat) : CashuProof :=
  { id := "009a1f293253e41e", amount := amount, secret := secret, C := "02c0" }

/-- A concrete stored row used in counterexamples and witnesses. -/
def cxRow (mintUrl secret : String) (amount : Nat) (st : ProofState) : ProofRow :=
  { mintUrl := mintUrl
    id := "009a1f293253e41e"
    amount := amount
    secret := secret
    C := "02c0"
    dleqJson := none
    witnessJson := none
    state := st
    createdAt := 7 }

/-- A ledger holding one already-spent proof at mint "M". -/
def cxSpentDb : WalletDb :=
  { proofs := [cxRow "M" "s1" 8 .spent], mintQuotes := [] }

/-- A ledger with one ready proof at mint "M" and one inflight proof at a
different mint "N" sharing the same secret "a". -/
def cxTwoMintDb : WalletDb :=
  { proofs := [cxRow "M" "a" 8 .ready, cxRow "N" "a" 5 .inflight], mintQuotes := [] }

/-- A ledger with two ready proofs at mint "M". -/
def cxTwoReadyDb : WalletDb :=
  { proofs := [cxRow "M" "a" 4 .ready, cxRow "M" "b" 4 .ready], mintQuotes := [] }

/-- A concrete keep/send partition from the Protocol Client. -/
def cxSplit : SendSplit := { keep := [cxProof "k" 2], send := [cxProof "t" 5] }

/-- A Protocol Client send stub returning `cxSplit`. -/
def cxSendFn : Nat → List ProofRow → Except String SendSplit :=
  fun _ _ => .ok cxSplit

/-- The tracked quote of the double-mint run. -/
def exItem : QuotePoolItem := { quoteId := "Q1", amount := 100, expiry := 1000 }

/-- Double-mint run, state 1: quote Q1 registered (pool tracks it, remote
state UNPAID). -/
def exS1 : EngineState :=
  { Engine.initEngine with
      pool := QuotePoolManager.addQuote Engine.initEngine.pool "Q1" 100 1000
      remote := Engine.setRemote Engine.initEngine.remote "Q1" .UNPAID }

/-- State 2: the invoice is paid externally. -/
def exS2 : EngineState :=
  { exS1 with remote := Engine.setRemote exS1.remote "Q1" .PAID }

/-- State 3: tick N fires and spawns a check task for Q1. -/
def exS3 : EngineState := Engine.spawnTick exS2 0

/-- State 4: tick N+1 fires while tick N's check is still in flight and
spawns a second task for Q1. -/
def exS4 : EngineState := Engine.spawnTick exS3 0

/-- State 5: tick N's task observes Q1 as PAID. -/
def exS5 : EngineState :=
  { exS4 with
      tasks := ⟨exItem, .checked (Engine.remoteState exS4.remote exItem.quoteId)⟩
        :: [⟨exItem, .started⟩] }

/-- State 6: tick N+1's task also observes Q1 as PAID (nothing has been
issued yet). -/
def exS6 : EngineState :=
  { exS5 with
      tasks := [⟨exItem, .checked .PAID⟩]
        ++ ⟨exItem, .checked (Engine.remoteState exS5.remote exItem.quoteId)⟩ :: [] }

/-- State 7: tick N's task mints Q1 (first mint). -/
def exS7 : EngineState :=
  { exS6 with
      tasks := ⟨exItem, .minted⟩ :: [⟨exItem, .checked .PAID⟩]
      remote := Engine.setRemote exS6.remote exItem.quoteId .ISSUED
      mintLog := exS6.mintLog ++ [exItem.quoteId] }

/-- State 8: tick N+1's task, still holding its stale paid-and-not-issued
observation, mints Q1 again (second mint). -/
def exS8 : EngineState :=
  { exS7 with
      tasks := [⟨exItem, .minted⟩] ++ ⟨exItem, .minted⟩ :: []
      remote := Engine.setRemote exS7.remote exItem.quoteId .ISSUED
      mintLog := exS7.mintLog ++ [exItem.quoteId] }

end ConcreteData

open CashuWalletService QuotePoolManager

/-- Membership in a state-filtered `getProofs` query. -/
theorem mem_getProofs_some {db : WalletDb} {mintUrl : String} {st : ProofState}
    {r : ProofRow} :
    r ∈ db.getProofs mintUrl (some st) ↔
      r ∈ db.proofs ∧ r.mintUrl = mintUrl ∧ r.state = st := by
  simp [WalletDb.getProofs, List.mem_filter, and_assoc]

/-- The proofs table of `updateProofState` is a row-wise map keyed by
secret alone. -/
theorem updateProofState_proofs (db : WalletDb) (s : String) (st : ProofState) :
    (db.updateProofState s st).proofs =
      db.proofs.map (fun r => if r.secret = s then { r with state := st } else r) :=
  rfl

/-- `updateProofState` leaves the quote table untouched. -/
theorem updateProofState_mintQuotes (db : WalletDb) (s : String) (st : ProofState) :
    (db.updateProofState s st).mintQuotes = db.mintQuotes :=
  rfl

/-- Folding `updateProofState _ spent` over a list of secrets marks exactly
the rows whose secret occurs in the list. -/
theorem spendAll_eq_markSpent (secs : List String) (db : WalletDb) :
    spendAll db secs = markSpent db secs := by
  induction secs generalizing db with
  | nil =>
    show db = markSpent db []
    simp [markSpent]
  | cons s rest ih =>
    show spendAll (db.updateProofState s .spent) rest = markSpent db (s :: rest)
    rw [ih]
    simp only [markSpent, updateProofState_proofs, List.map_map]
    refine congrArg (fun l => WalletDb.mk l db.mintQuotes) (List.map_congr_left ?_)
    intro r _
    by_cases h1 : r.secret = s
    · by_cases h2 : r.secret ∈ rest <;>
        simp [Function.comp, h1, h2, List.mem_cons]
    · by_cases h2 : r.secret ∈ rest <;>
        simp [Function.comp, h1, h2, List.mem_cons]

/-- The mark-selected-spent loops of `sendEcash`/`payInvoice` are a
`spendAll` over the selected rows' secrets. -/
theorem foldSpend_eq_spendAll (rows : List ProofRow) (db : WalletDb) :
    rows.foldl (fun d r => d.updateProofState r.secret .spent) db
      = spendAll db (secretsOf rows) := by
  rw [spendAll, secretsOf, List.foldl_map]

/-- Case analysis for membership after one `INSERT OR REPLACE`. -/
theorem insertOrReplace_mem_cases {db : WalletDb} {row r2 : ProofRow}
    (h : r2 ∈ (db.insertOrReplaceProof row).proofs) :
    r2 ∈ db.proofs ∨ r2 = row := by
  simp only [WalletDb.insertOrReplaceProof, List.mem_append, List.mem_filter,
    List.mem_singleton] at h
  rcases h with h | h
  · exact Or.inl h.1
  · exact Or.inr h

/-- A row whose key differs from the inserted one survives
`INSERT OR REPLACE`. -/
theorem insertOrReplace_mem_of_ne {db : WalletDb} {row r : ProofRow}
    (hr : r ∈ db.proofs)
    (hne : ¬(r.mintUrl = row.mintUrl ∧ r.secret = row.secret)) :
    r ∈ (db.insertOrReplaceProof row).proofs := by
  have hmem : r ∈ db.proofs.filter
      (fun x => decide (¬(x.mintUrl = row.mintUrl ∧ x.secret = row.secret))) :=
    List.mem_filter.mpr ⟨hr, by simpa using not_and_or.mp hne⟩
  exact List.mem_append_left _ hmem

/-- Case analysis for membership after a `saveProofs` batch: a surviving
old row, or a row freshly written for one of the proofs. -/
theorem saveProofs_mem_cases {ps : List CashuProof} {db : WalletDb}
    {mintUrl : String} {st : ProofState} {now : Nat} {r2 : ProofRow}
    (h : r2 ∈ (db.saveProofs ps mintUrl st now).proofs) :
    r2 ∈ db.proofs ∨ ∃ p ∈ ps, r2 = WalletDb.rowOfProof mintUrl p st now := by
  induction ps generalizing db with
  | nil => exact Or.inl h
  | cons p rest ih =>
    rcases ih (h : r2 ∈ ((db.insertOrReplaceProof
        (WalletDb.rowOfProof mintUrl p st now)).saveProofs rest mintUrl st now).proofs) with
      h1 | ⟨p1, hp1, rfl⟩
    · rcases insertOrReplace_mem_cases h1 with h2 | h2
      · exact Or.inl h2
      · exact Or.inr ⟨p, List.mem_cons_self _ _, h2⟩
    · exact Or.inr ⟨p1, List.mem_cons_of_mem _ hp1, rfl⟩

/-- A row whose key no written proof reuses survives the whole
`saveProofs` batch unchanged. -/
theorem saveProofs_mem_of_not_written {ps : List CashuProof} {db : WalletDb}
    {mintUrl : String} {st : ProofState} {now : Nat} {r : ProofRow}
    (hr : r ∈ db.proofs)
    (hw : ∀ p ∈ ps, ¬(r.mintUrl = mintUrl ∧ r.secret = p.secret)) :
    r ∈ (db.saveProofs ps mintUrl st now).proofs := by
  induction ps generalizing db with
  | nil => exact hr
  | cons p rest ih =>
    refine ih
      ((insertOrReplace_mem_of_ne hr ?_ :
        r ∈ (db.insertOrReplaceProof (WalletDb.rowOfProof mintUrl p st now)).proofs))
      (fun p1 hp1 => hw p1 (List.mem_cons_of_mem _ hp1))
    exact hw p (List.mem_cons_self _ _)

/-- `saveProofs` leaves the quote table untouched. -/
theorem saveProofs_mintQuotes (ps : List CashuProof) (db : WalletDb)
    (mintUrl : String) (st : ProofState) (now : Nat) :
    (db.saveProofs ps mintUrl st now).mintQuotes = db.mintQuotes := by
  induction ps generalizing db with
  | nil => rfl
  | cons p rest ih =>
    exact ih (db.insertOrReplaceProof (WalletDb.rowOfProof mintUrl p st now))

/-- Two rows of a key-deduplicated table sharing a primary key are the
same row. -/
theorem WalletDb.NodupKeys.eq_of_key {db : WalletDb} (hnd : db.NodupKeys) {r r2 : ProofRow}
    (h1 : r ∈ db.proofs) (h2 : r2 ∈ db.proofs) (hm : r.mintUrl = r2.mintUrl)
    (hs : r.secret = r2.secret) : r = r2 := by
  by_contra hne
  have hsym : Symmetric (fun a b : ProofRow => a.mintUrl ≠ b.mintUrl ∨ a.secret ≠ b.secret) :=
    fun a b hab => hab.imp Ne.symm Ne.symm
  rcases hnd.forall hsym h1 h2 hne with h | h
  · exact h hm
  · exact h hs

/-- No state is further along than spent. -/
theorem rank_le_spent (st : ProofState) : st.rank ≤ ProofState.spent.rank := by
  cases st <;> decide

/-- `SpentOnly` is reflexive. -/
theorem spentOnly_refl (db : WalletDb) : SpentOnly db db :=
  fun r2 h => ⟨r2, h, Or.inl rfl⟩

/-- `SpentOnly` composes. -/
theorem spentOnly_trans {a b c : WalletDb} (h1 : SpentOnly a b)
    (h2 : SpentOnly b c) : SpentOnly a c := by
  intro r2 hr2
  rcases h2 r2 hr2 with ⟨r1, hr1, hc⟩
  rcases h1 r1 hr1 with ⟨r, hr, hb⟩
  refine ⟨r, hr, ?_⟩
  rcases hc with rfl | rfl <;> rcases hb with rfl | rfl <;> simp

/-- Marking one secret spent only overwrites states to spent. -/
theorem spentOnly_updateSpent (db : WalletDb) (s : String) :
    SpentOnly db (db.updateProofState s .spent) := by
  intro r2 hr2
  rw [updateProofState_proofs] at hr2
  rcases List.mem_map.mp hr2 with ⟨r, hr, rfl⟩
  refine ⟨r, hr, ?_⟩
  split <;> simp

/-- The forward relation follows from `SpentOnly` over a key-deduplicated
pre-state. -/
theorem forwardDb_of_spentOnly {pre post : WalletDb} (hnd : pre.NodupKeys)
    (h : SpentOnly pre post) : ForwardDb pre post := by
  intro r hr r2 hr2 hm hs
  rcases h r2 hr2 with ⟨r1, hr1, hc⟩
  rcases hc with rfl | rfl
  · rw [hnd.eq_of_key hr hr1 hm hs]
  · have : r = r1 := hnd.eq_of_key hr hr1 (by simpa using hm) (by simpa using hs)
    subst this
    exact rank_le_spent _

/-- Persisting a batch on top of an already-forward state stays forward as
long as the written keys respect the write discipline on the pre-state. -/
theorem forwardDb_save {pre mid : WalletDb} {ps : List CashuProof}
    {mintUrl : String} {st : ProofState} {now : Nat}
    (hmid : ForwardDb pre mid) (hwr : WriteOk pre mintUrl st ps) :
    ForwardDb pre (mid.saveProofs ps mintUrl st now) := by
  intro r hr r2 hr2 hm hs
  rcases saveProofs_mem_cases hr2 with h | ⟨p, hp, rfl⟩
  · exact hmid r hr r2 h hm hs
  · exact hwr p hp r hr (by simpa [WalletDb.rowOfProof] using hm)
      (by simpa [WalletDb.rowOfProof] using hs)

/-- The `cleanPendingProofs` loop in closed form: the database gets the
SPENT-paired secrets marked spent, and the counters accumulate the number
and summed amount of SPENT-paired rows. -/
theorem cleanFold_eq (pairs : List (ProofRow × CheckProofState)) :
    ∀ (db : WalletDb) (c a : Nat),
      pairs.foldl cleanStep (db, c, a)
        = (spendAll db (secretsOf (spentOf pairs)),
           c + (spentOf pairs).length,
           a + sumRows (spentOf pairs)) := by
  induction pairs with
  | nil =>
    intro db c a
    simp [spentOf, secretsOf, sumRows, spendAll]
  | cons pr rest ih =>
    intro db c a
    by_cases h : pr.2 = CheckProofState.SPENT
    · have hstep : cleanStep (db, c, a) pr
          = (db.updateProofState pr.1.secret .spent, c + 1, a + pr.1.amount) := by
        simp [cleanStep, h]
      have hsp : spentOf (pr :: rest) = pr.1 :: spentOf rest := by
        simp [spentOf, h]
      rw [List.foldl_cons, hstep, ih, hsp]
      have h2 : c + 1 + (spentOf rest).length = c + (pr.1 :: spentOf rest).length := by
        simp only [List.length_cons]
        omega
      have h3 : a + pr.1.amount + sumRows (spentOf rest)
          = a + sumRows (pr.1 :: spentOf rest) := by
        simp only [sumRows, List.map_cons, List.sum_cons]
        omega
      rw [h2, h3]
      rfl
    · have hstep : cleanStep (db, c, a) pr = (db, c, a) := by
        simp [cleanStep, h]
      have hsp : spentOf (pr :: rest) = spentOf rest := by
        simp [spentOf, h]
      rw [List.foldl_cons, hstep, ih, hsp]

/-- A `Map.set` never empties the tracked map. -/
theorem mapSet_ne_nil (quotes : List QuotePoolItem) (item : QuotePoolItem) :
    mapSet quotes item ≠ [] := by
  by_cases h : quotes.any (fun q => decide (q.quoteId = item.quoteId)) = true
  · rw [mapSet, if_pos h]
    intro hnil
    rw [List.map_eq_nil_iff] at hnil
    subst hnil
    simp at h
  · rw [mapSet, if_neg h]
    simp

/-- After `stop` the timer is not running. -/
theorem stop_isRunning (s : PoolState) : (stop s).isRunning = false := by
  unfold stop
  split
  · rfl
  · next h => simpa using h

/-- `stop` does not change the tracked map. -/
theorem stop_quotes (s : PoolState) : (stop s).quotes = s.quotes := by
  unfold stop
  split <;> rfl

/-- Deleting entries from the tracked map and stopping on empty preserves
the timer/occupancy coupling. -/
theorem timerInv_filter_guard {s : PoolState} (h : TimerInv s)
    (p : QuotePoolItem → Bool) :
    TimerInv
      (if (s.quotes.filter p).length = 0 then
        stop { s with quotes := s.quotes.filter p }
      else
        { s with quotes := s.quotes.filter p }) := by
  by_cases hl : (s.quotes.filter p).length = 0
  · rw [if_pos hl]
    constructor
    · intro hrun
      rw [stop_isRunning] at hrun
      cases hrun
    · intro hne
      exfalso
      apply hne
      rw [stop_quotes]
      exact List.length_eq_zero.mp hl
  · rw [if_neg hl]
    have hne : s.quotes.filter p ≠ [] := fun hnil => hl (by rw [hnil]; rfl)
    have hq : s.quotes ≠ [] := by
      intro hnil
      exact hne (by rw [hnil]; rfl)
    constructor
    · intro _
      exact hne
    · intro _
      exact h.mpr hq

/-- `addQuote` preserves the timer/occupancy coupling (and in particular
starts the timer when the pool was idle). -/
theorem timerInv_addQuote {s : PoolState} (_h : TimerInv s)
    (quoteId : String) (amount expiry : Nat) :
    TimerInv (addQuote s quoteId amount expiry) := by
  simp only [addQuote]
  split
  · next hrun => exact ⟨fun _ => mapSet_ne_nil _ _, fun _ => hrun⟩
  · next hrun =>
    unfold start
    split
    · next h2 => exact absurd h2 hrun
    · exact ⟨fun _ => mapSet_ne_nil _ _, fun _ => rfl⟩

/-- `removeQuote` preserves the timer/occupancy coupling (and in particular
stops the timer when the last quote leaves). -/
theorem timerInv_removeQuote {s : PoolState} (h : TimerInv s)
    (quoteId : String) : TimerInv (removeQuote s quoteId) :=
  timerInv_filter_guard h _

/-- The expiry purge preserves the timer/occupancy coupling. -/
theorem timerInv_cleanup {s : PoolState} (h : TimerInv s) (now : Nat) :
    TimerInv (cleanupExpiredQuotes s now) :=
  timerInv_filter_guard h _

/-- Every pool operation preserves the timer/occupancy coupling. -/
theorem timerInv_apply {s : PoolState} (h : TimerInv s) (op : PoolOp) :
    TimerInv (applyPoolOp s op) := by
  cases op with
  | add quoteId amount expiry => exact timerInv_addQuote h quoteId amount expiry
  | remove quoteId => exact timerInv_removeQuote h quoteId
  | cleanup now => exact timerInv_cleanup h now

/-- Reading a quote id back right after `setRemote`. -/
theorem remoteState_setRemote (rem : String → QuoteState) (quoteId q : String)
    (st : QuoteState) :
    Engine.remoteState (Engine.setRemote rem quoteId st) q
      = if q = quoteId then st else Engine.remoteState rem q :=
  rfl

/-- One serialized `checkAndMintQuote` preserves the at-most-once-mint
invariant: a quote already in the mint log reads back ISSUED, so its branch
removes it without minting. -/
theorem seqInv_runCheckAndMint {s : Engine.SeqEngineState} (h : SeqInv s)
    (item : QuotePoolItem) (mintOk : Bool) :
    SeqInv (Engine.runCheckAndMint s item mintOk) := by
  rcases hrs : Engine.remoteState s.remote item.quoteId with _ | _ | _
  · simp only [Engine.runCheckAndMint, hrs]
    exact h
  · simp only [Engine.runCheckAndMint, hrs]
    cases mintOk with
    | false => simpa using h
    | true =>
      simp only [if_true]
      intro q
      have hnotin : item.quoteId ∉ s.mintLog := by
        intro hmem
        have hiss := (h item.quoteId).2 hmem
        rw [hrs] at hiss
        cases hiss
      constructor
      · by_cases hq : q = item.quoteId
        · rw [hq]
          have h0 : s.mintLog.count item.quoteId = 0 := List.count_eq_zero.mpr hnotin
          simp [h0]
        · have h1 : q ∉ [item.quoteId] := by simp [hq]
          simpa [List.count_append, List.count_eq_zero.mpr h1] using (h q).1
      · intro hmem
        rw [remoteState_setRemote]
        by_cases hq : q = item.quoteId
        · rw [if_pos hq]
        · rw [if_neg hq]
          rcases List.mem_append.mp hmem with hmem1 | hmem1
          · exact (h q).2 hmem1
          · exact absurd (List.mem_singleton.mp hmem1) hq
  · simp only [Engine.runCheckAndMint, hrs]
    exact h

/-- Running a batch of serialized checks preserves the invariant. -/
theorem seqInv_foldCheck (l : List QuotePoolItem) (mintOk : String → Bool) :
    ∀ s : Engine.SeqEngineState, SeqInv s →
      SeqInv (l.foldl (fun t q => Engine.runCheckAndMint t q (mintOk q.quoteId)) s) := by
  induction l with
  | nil => exact fun s hs => hs
  | cons q rest ih =>
    intro s hs
    exact ih _ (seqInv_runCheckAndMint hs q (mintOk q.quoteId))

/-- Every serialized engine event preserves the at-most-once-mint
invariant. -/
theorem seqInv_applySeqOp {s : Engine.SeqEngineState} (h : SeqInv s)
    (op : Engine.SeqOp) : SeqInv (Engine.applySeqOp s op) := by
  cases op with
  | register quoteId amount expiry =>
    simp only [Engine.applySeqOp]
    split
    · next hguard =>
      intro q
      refine ⟨(h q).1, ?_⟩
      intro hmem
      rw [remoteState_setRemote]
      by_cases hq : q = quoteId
      · subst hq
        have hiss := (h q).2 hmem
        rw [hguard] at hiss
        cases hiss
      · rw [if_neg hq]
        exact (h q).2 hmem
    · exact h
  | pay quoteId =>
    simp only [Engine.applySeqOp]
    split
    · next hguard =>
      intro q
      refine ⟨(h q).1, ?_⟩
      intro hmem
      rw [remoteState_setRemote]
      by_cases hq : q = quoteId
      · subst hq
        have hiss := (h q).2 hmem
        rw [hguard] at hiss
        cases hiss
      · rw [if_neg hq]
        exact (h q).2 hmem
    · exact h
  | tick now mintOk =>
    exact seqInv_foldCheck _ mintOk _ h

/-- C8: the Monitoring Engine's timer state tracks pool occupancy — after
every sequence of addQuote, removeQuote and expiry-purge operations from the
initial idle state, the interval timer is running if and only if the tracked
quote set is non-empty (so registering a quote while Idle starts the timer
and removing the last tracked quote stops it). -/
theorem quotePool_timer_iff_nonempty :
    ∀ ops : List PoolOp, TimerInv (ops.foldl applyPoolOp initPool) := by
  have hinit : TimerInv initPool := by
    constructor
    · intro h
      cases h
    · intro h
      exact absurd rfl h
  intro ops
  suffices hgen : ∀ s, TimerInv s → TimerInv (ops.foldl applyPoolOp s) from
    hgen _ hinit
  induction ops with
  | nil => exact fun _ hs => hs
  | cons op rest ih => exact fun s hs => ih _ (timerInv_apply hs op)

/-- C1 (amended): each tick schedules at most one check per tracked quote
id, and when ticks are serialized — every tick's checks running to
completion before the next event — no quote id is ever minted twice across
the whole run; the at-most-once guarantee does not extend to overlapping
ticks. -/
theorem engine_serialized_mints_at_most_once :
    ∀ (ops : List Engine.SeqOp) (q : String),
      ((ops.foldl Engine.applySeqOp Engine.initSeq).mintLog.count q) ≤ 1 := by
  have hinit : SeqInv Engine.initSeq := by
    intro q
    constructor
    · simp [Engine.initSeq]
    · intro hmem
      simp [Engine.initSeq] at hmem
  have hgen : ∀ (ops : List Engine.SeqOp) (s : Engine.SeqEngineState),
      SeqInv s → SeqInv (ops.foldl Engine.applySeqOp s) := by
    intro ops
    induction ops with
    | nil => exact fun _ hs => hs
    | cons op rest ih => exact fun s hs => ih _ (seqInv_applySeqOp hs op)
  exact fun ops q => (hgen ops Engine.initSeq hinit q).1

/-- C1 (counterexample): under overlapping ticks the engine can mint the
same quote id twice — two ticks both schedule quote Q1, both checks observe
it paid-and-not-issued, and both tasks then call mintProofs, so the reachable
state exS8 carries Q1 twice in the mint log. -/
theorem engine_overlapping_ticks_double_mint :
    Engine.Reachable exS8 ∧ exS8.mintLog = ["Q1", "Q1"] := by
  refine ⟨?_, rfl⟩
  have h1 : Engine.Step Engine.initEngine exS1 :=
    Engine.Step.register Engine.initEngine "Q1" 100 1000 rfl
  have h2 : Engine.Step exS1 exS2 :=
    Engine.Step.pay exS1 "Q1" rfl
  have h3 : Engine.Step exS2 exS3 :=
    Engine.Step.tick exS2 0
  have h4 : Engine.Step exS3 exS4 :=
    Engine.Step.tick exS3 0
  have h5 : Engine.Step exS4 exS5 :=
    Engine.Step.check exS4 [] [⟨exItem, .started⟩] exItem rfl
  have h6 : Engine.Step exS5 exS6 :=
    Engine.Step.check exS5 [⟨exItem, .checked .PAID⟩] [] exItem rfl
  have h7 : Engine.Step exS6 exS7 :=
    Engine.Step.mint exS6 [] [⟨exItem, .checked .PAID⟩] exItem rfl
  have h8 : Engine.Step exS7 exS8 :=
    Engine.Step.mint exS7 [⟨exItem, .minted⟩] [] exItem rfl
  exact ((((((((Relation.ReflTransGen.refl.tail h1).tail h2).tail h3).tail
    h4).tail h5).tail h6).tail h7).tail h8)

/-- C5: getBalance reports the entry-state ready sum, inflight sum and
their total, and its final state is the cleanup sweep's state exactly when
at least one inflight proof exists (otherwise the ledger is untouched). -/
theorem getBalance_total_and_sweep (mintUrl : String) (db : WalletDb)
    (cleanResp : Except String (List CheckProofState)) :
    (getBalance mintUrl db cleanResp).2.total
        = db.getBalance (some mintUrl) + sumRows (db.getProofs mintUrl (some .inflight)) ∧
    (getBalance mintUrl db cleanResp).2.balance = db.getBalance (some mintUrl) ∧
    (getBalance mintUrl db cleanResp).2.pendingBalance
        = sumRows (db.getProofs mintUrl (some .inflight)) ∧
    (getBalance mintUrl db cleanResp).1
        = (if db.getProofs mintUrl (some .inflight) = [] then db
           else (cleanPendingProofs mintUrl db cleanResp).1) := by
  refine ⟨rfl, rfl, rfl, ?_⟩
  by_cases hp : db.getProofs mintUrl (some .inflight) = []
  · rw [if_pos hp]
    show (if (db.getProofs mintUrl (some .inflight)).length > 0 then _ else db) = db
    rw [if_neg (by simp [hp])]
  · rw [if_neg hp]
    show (if (db.getProofs mintUrl (some .inflight)).length > 0 then
      (cleanPendingProofs mintUrl db cleanResp).1 else db)
        = (cleanPendingProofs mintUrl db cleanResp).1
    rw [if_pos (List.length_pos.mpr hp)]

/-- C3: when the summed ready balance at the configured mint is strictly
below the requested amount, sendEcash fails with InsufficientBalance and
returns the ledger — proof rows and quote rows — exactly as it was. -/
theorem sendEcash_insufficient_leaves_ledger (mintUrl : String) (db : WalletDb)
    (amount : Nat) (sendFn : Nat → List ProofRow → Except String SendSplit)
    (now : Nat)
    (hlow : sumRows (db.getProofs mintUrl (some .ready)) < amount) :
    sendEcash mintUrl db amount sendFn now
      = (db, .error (.insufficientBalance
          (sumRows (db.getProofs mintUrl (some .ready))) amount)) := by
  have h0 : ¬ amount = 0 := by omega
  simp only [sendEcash]
  rw [if_neg h0, if_pos hlow]

/-- C3 witness: on a ledger whose only proof at mint M is already spent, a
send of 5 fails with InsufficientBalance 0 5 and changes nothing. -/
theorem sendEcash_insufficient_leaves_ledger_witness :
    sumRows (cxSpentDb.getProofs "M" (some .ready)) < 5 ∧
    sendEcash "M" cxSpentDb 5 (fun _ _ => .error "unused") 0
      = (cxSpentDb, .error (.insufficientBalance 0 5)) := by
  constructor
  · decide
  · have h := sendEcash_insufficient_leaves_ledger "M" cxSpentDb 5
      (fun _ _ => .error "unused") 0 (by decide)
    simpa using h

/-- C4: on the success path of sendEcash, if the Protocol Client's send
contract holds — keep + send + fee account for exactly the selected ready
sum — then the reported kept and sent amounts add up to the selected sum
minus the fee, and never exceed the selected sum. -/
theorem sendEcash_conservation (mintUrl : String) (db : WalletDb)
    (amount : Nat) (sendFn : Nat → List ProofRow → Except String SendSplit)
    (now : Nat) (split : SendSplit) (fee : Nat)
    (h0 : ¬ amount = 0)
    (hbal : ¬ sumRows (db.getProofs mintUrl (some .ready)) < amount)
    (hfn : sendFn amount (db.getProofs mintUrl (some .ready)) = .ok split)
    (hfee : sumProofs split.keep + sumProofs split.send + fee
        = sumRows (db.getProofs mintUrl (some .ready))) :
    (sendEcash mintUrl db amount sendFn now).2
      = .ok { sentAmount := sumProofs split.send
              keepAmount := sumProofs split.keep
              sentProofs := split.send
              keepProofs := split.keep } ∧
    sumProofs split.keep + sumProofs split.send
        = sumRows (db.getProofs mintUrl (some .ready)) - fee ∧
    sumProofs split.keep + sumProofs split.send
        ≤ sumRows (db.getProofs mintUrl (some .ready)) := by
  refine ⟨?_, by omega, by omega⟩
  simp only [sendEcash]
  rw [if_neg h0, if_neg hbal, hfn]

/-- C4 witness: with one ready 8-sat proof, a send of 5 splitting into
keep 2 and send 5 with fee 1 reports 2 + 5 = 8 - 1 ≤ 8. -/
theorem sendEcash_conservation_witness :
    (¬ (5 : Nat) = 0) ∧
    (¬ sumRows ((WalletDb.mk [cxRow "M" "s1" 8 .ready] []).getProofs "M" (some .ready)) < 5) ∧
    ((fun (_ : Nat) (_ : List ProofRow) =>
        (.ok ⟨[cxProof "k" 2], [cxProof "t" 5]⟩ : Except String SendSplit)) 5
      ((WalletDb.mk [cxRow "M" "s1" 8 .ready] []).getProofs "M" (some .ready))
        = .ok ⟨[cxProof "k" 2], [cxProof "t" 5]⟩) ∧
    sumProofs [cxProof "k" 2] + sumProofs [cxProof "t" 5]
        = sumRows ((WalletDb.mk [cxRow "M" "s1" 8 .ready] []).getProofs "M" (some .ready)) - 1 ∧
    sumProofs [cxProof "k" 2] + sumProofs [cxProof "t" 5]
        ≤ sumRows ((WalletDb.mk [cxRow "M" "s1" 8 .ready] []).getProofs "M" (some .ready)) := by
  refine ⟨by decide, by decide, rfl, ?_, ?_⟩
  · exact (sendEcash_conservation "M" (WalletDb.mk [cxRow "M" "s1" 8 .ready] []) 5
      (fun _ _ => .ok ⟨[cxProof "k" 2], [cxProof "t" 5]⟩) 0
      ⟨[cxProof "k" 2], [cxProof "t" 5]⟩ 1
      (by decide) (by decide) rfl (by decide)).2.1
  · exact (sendEcash_conservation "M" (WalletDb.mk [cxRow "M" "s1" 8 .ready] []) 5
      (fun _ _ => .ok ⟨[cxProof "k" 2], [cxProof "t" 5]⟩) 0
      ⟨[cxProof "k" 2], [cxProof "t" 5]⟩ 1
      (by decide) (by decide) rfl (by decide)).2.2

/-- Updating a quote's state twice to the same value is a single update. -/
theorem updateMintQuoteState_idem (db : WalletDb) (mintUrl q : String)
    (st : QuoteState) :
    (db.updateMintQuoteState mintUrl q st).updateMintQuoteState mintUrl q st
      = db.updateMintQuoteState mintUrl q st := by
  simp only [WalletDb.updateMintQuoteState, List.map_map]
  refine congrArg (fun l => WalletDb.mk db.proofs l) (List.map_congr_left ?_)
  intro r _
  by_cases h : r.mintUrl = mintUrl ∧ r.quote = q
  · simp [Function.comp, h]
  · simp [Function.comp, h]

/-- checkMintQuote on a clean response in closed form. -/
theorem checkMintQuote_ok_eq (mintUrl : String) (db : WalletDb)
    (quoteId : String) (rst : QuoteState) (ramt : Nat) (hq : ¬ quoteId = "") :
    checkMintQuote mintUrl db quoteId ⟨none, rst, ramt⟩
      = (db.updateMintQuoteState mintUrl quoteId rst,
         .ok { quoteId := quoteId
               state := rst
               amount := ramt
               isPaid := decide (rst = QuoteState.PAID)
               isIssued := decide (rst = QuoteState.ISSUED)
               canMint := decide (rst = QuoteState.PAID)
                 && !decide (rst = QuoteState.ISSUED) }) := by
  simp only [checkMintQuote]
  rw [if_neg hq]

/-- C6: checkMintQuote is idempotent absent external state change — running
it a second time with the Protocol Client reporting the same state leaves
the quote store exactly as after the first run and returns the same result —
and any returned status satisfies canMint = isPaid && !isIssued. -/
theorem checkMintQuote_idempotent_canMint (mintUrl : String) (db : WalletDb)
    (quoteId : String) (resp : CheckQuoteResp) (res : MintQuoteStatusResult)
    (hok : (checkMintQuote mintUrl db quoteId resp).2 = .ok res) :
    checkMintQuote mintUrl (checkMintQuote mintUrl db quoteId resp).1 quoteId resp
        = checkMintQuote mintUrl db quoteId resp ∧
    res.canMint = (res.isPaid && !res.isIssued) := by
  obtain ⟨err, rst, ramt⟩ := resp
  by_cases hq : quoteId = ""
  · have hbad : (checkMintQuote mintUrl db quoteId ⟨err, rst, ramt⟩).2
        = .error .missingParameter := by
      simp only [checkMintQuote]
      rw [if_pos hq]
    rw [hbad] at hok
    exact absurd hok (by simp)
  cases err with
  | some e =>
    have hbad : (checkMintQuote mintUrl db quoteId ⟨some e, rst, ramt⟩).2
        = .error (.protocolError e) := by
      simp only [checkMintQuote]
      rw [if_neg hq]
    rw [hbad] at hok
    exact absurd hok (by simp)
  | none =>
    rw [checkMintQuote_ok_eq mintUrl db quoteId rst ramt hq] at hok
    have hres : { quoteId := quoteId
                  state := rst
                  amount := ramt
                  isPaid := decide (rst = QuoteState.PAID)
                  isIssued := decide (rst = QuoteState.ISSUED)
                  canMint := decide (rst = QuoteState.PAID)
                    && !decide (rst = QuoteState.ISSUED) } = res := by
      simpa using hok
    constructor
    · calc
        checkMintQuote mintUrl
            (checkMintQuote mintUrl db quoteId ⟨none, rst, ramt⟩).1 quoteId
            ⟨none, rst, ramt⟩
            = checkMintQuote mintUrl (db.updateMintQuoteState mintUrl quoteId rst)
                quoteId ⟨none, rst, ramt⟩ := by
              rw [checkMintQuote_ok_eq mintUrl db quoteId rst ramt hq]
        _ = ((db.updateMintQuoteState mintUrl quoteId rst).updateMintQuoteState
                mintUrl quoteId rst,
             .ok { quoteId := quoteId
                   state := rst
                   amount := ramt
                   isPaid := decide (rst = QuoteState.PAID)
                   isIssued := decide (rst = QuoteState.ISSUED)
                   canMint := decide (rst = QuoteState.PAID)
                     && !decide (rst = QuoteState.ISSUED) }) :=
          checkMintQuote_ok_eq mintUrl _ quoteId rst ramt hq
        _ = checkMintQuote mintUrl db quoteId ⟨none, rst, ramt⟩ := by
          rw [updateMintQuoteState_idem,
            checkMintQuote_ok_eq mintUrl db quoteId rst ramt hq]
    · rw [← hres]

/-- C6 witness: re-checking quote q1 reported PAID is a no-op and the
returned result has canMint = isPaid && !isIssued. -/
theorem checkMintQuote_idempotent_canMint_witness :
    ((checkMintQuote "M" (WalletDb.mk [] []) "q1" ⟨none, .PAID, 5⟩).2
        = .ok { quoteId := "q1", state := .PAID, amount := 5,
                isPaid := true, isIssued := false, canMint := true }) ∧
    (checkMintQuote "M" (checkMintQuote "M" (WalletDb.mk [] []) "q1"
          ⟨none, .PAID, 5⟩).1 "q1" ⟨none, .PAID, 5⟩
        = checkMintQuote "M" (WalletDb.mk [] []) "q1" ⟨none, .PAID, 5⟩) ∧
    ({ quoteId := "q1", state := .PAID, amount := 5, isPaid := true,
       isIssued := false, canMint := true } : MintQuoteStatusResult).canMint
      = (true && !false) := by
  refine ⟨rfl, ?_, ?_⟩
  · exact (checkMintQuote_idempotent_canMint "M" (WalletDb.mk [] []) "q1"
      ⟨none, .PAID, 5⟩
      { quoteId := "q1", state := .PAID, amount := 5, isPaid := true,
        isIssued := false, canMint := true } rfl).1
  · exact (checkMintQuote_idempotent_canMint "M" (WalletDb.mk [] []) "q1"
      ⟨none, .PAID, 5⟩
      { quoteId := "q1", state := .PAID, amount := 5, isPaid := true,
        isIssued := false, canMint := true } rfl).2

/-- C7: cleanPendingProofs always returns normally with full counts — on a
failed batch query it changes nothing and reports zero cleaned; on a
successful one it marks spent exactly the inflight rows paired (by index)
with a SPENT answer, leaves every other row (in particular each UNSPENT
one) untouched, and reports {cleaned, checked, remaining} accordingly. -/
theorem cleanPendingProofs_total_spec (mintUrl : String) (db : WalletDb)
    (resp : Except String (List CheckProofState)) :
    cleanPendingProofs mintUrl db resp
      = match resp with
        | .error _ =>
          (db, { cleanedCount := 0
                 cleanedAmount := 0
                 totalChecked := (db.getProofs mintUrl (some .inflight)).length
                 remainingPending := (db.getProofs mintUrl (some .inflight)).length })
        | .ok states =>
          (markSpent db
            (secretsOf (spentOf ((db.getProofs mintUrl (some .inflight)).zip states))),
           { cleanedCount :=
               (spentOf ((db.getProofs mintUrl (some .inflight)).zip states)).length
             cleanedAmount :=
               sumRows (spentOf ((db.getProofs mintUrl (some .inflight)).zip states))
             totalChecked := (db.getProofs mintUrl (some .inflight)).length
             remainingPending := (db.getProofs mintUrl (some .inflight)).length
               - (spentOf ((db.getProofs mintUrl (some .inflight)).zip states)).length }) := by
  cases resp with
  | error e =>
    simp only [cleanPendingProofs]
    by_cases hp : db.getProofs mintUrl (some .inflight) = []
    · rw [if_pos hp, hp]
      rfl
    · rw [if_neg hp]
  | ok states =>
    simp only [cleanPendingProofs]
    by_cases hp : db.getProofs mintUrl (some .inflight) = []
    · rw [if_pos hp, hp]
      simp [markSpent, spentOf, secretsOf, sumRows]
    · rw [if_neg hp, cleanFold_eq, spendAll_eq_markSpent]
      simp

/-- `spendAll` only ever overwrites states to spent. -/
theorem spentOnly_spendAll (db : WalletDb) (secs : List String) :
    SpentOnly db (spendAll db secs) := by
  rw [spendAll_eq_markSpent]
  intro r2 hr2
  simp only [markSpent] at hr2
  rcases List.mem_map.mp hr2 with ⟨r, hr, rfl⟩
  refine ⟨r, hr, ?_⟩
  split
  · exact Or.inr rfl
  · exact Or.inl rfl

/-- C2 (amended): every public wallet operation moves proof lifecycle
states only forward along ready → inflight → spent, provided the proofs the
Protocol Client hands back for persistence never reuse the (mint, secret)
key of a stored row that is already further along than the state they are
persisted with; without that freshness discipline the upsert in saveProofs
can overwrite a spent row backward. -/
theorem walletOps_move_proof_state_forward (mintUrl : String) (db : WalletDb)
    (op : WalletOp) (hnd : db.NodupKeys) (hfresh : FreshOk mintUrl db op) :
    ForwardDb db (applyWalletOp mintUrl db op) := by
  have hrefl : ForwardDb db db := forwardDb_of_spentOnly hnd (spentOnly_refl db)
  cases op with
  | mintOp q a resp now =>
    simp only [applyWalletOp, mintProofs]
    split
    · exact hrefl
    · split
      · exact hrefl
      · split
        · exact hrefl
        · exact forwardDb_save hrefl hfresh
  | sendOp a resp now =>
    simp only [applyWalletOp, sendEcash]
    split
    · exact hrefl
    · split
      · exact hrefl
      · split
        · exact hrefl
        · rw [foldSpend_eq_spendAll]
          exact forwardDb_save (forwardDb_save
            (forwardDb_of_spentOnly hnd (spentOnly_spendAll db _)) hfresh.1) hfresh.2
  | receiveOp t resp now =>
    simp only [applyWalletOp, receiveEcash]
    split
    · exact hrefl
    · split
      · exact hrefl
      · split
        · exact hrefl
        · exact forwardDb_save hrefl hfresh
  | payOp i mq resp meltResp chk now =>
    simp only [applyWalletOp, payInvoice]
    split
    · exact hrefl
    · split
      · exact hrefl
      · split
        · exact hrefl
        · split
          · exact hrefl
          · split
            · exact hrefl
            · rw [foldSpend_eq_spendAll]
              split <;> split <;> first
                | exact forwardDb_save (forwardDb_save
                    (forwardDb_of_spentOnly hnd (spentOnly_spendAll db _))
                    hfresh.1) hfresh.2.1
                | exact forwardDb_save (forwardDb_save (forwardDb_save
                    (forwardDb_of_spentOnly hnd (spentOnly_spendAll db _))
                    hfresh.1) hfresh.2.1) hfresh.2.2
  | cleanOp resp =>
    simp only [applyWalletOp, cleanPendingProofs]
    split
    · exact hrefl
    · split
      · exact hrefl
      · rw [cleanFold_eq]
        exact forwardDb_of_spentOnly hnd (spentOnly_spendAll db _)

/-- C2 (counterexample): receiveEcash of a token whose proof reuses the
secret of an already-spent row at the same mint overwrites that row back to
ready — the spent → ready move the claim rules out. -/
theorem receive_resurrects_spent_proof :
    (WalletDb.findProofRow cxSpentDb "M" "s1").map (fun r => r.state)
        = some ProofState.spent ∧
    (WalletDb.findProofRow
        ((receiveEcash "M" cxSpentDb "tok" (.ok [cxProof "s1" 8]) 9).1)
        "M" "s1").map (fun r => r.state)
      = some ProofState.ready := by
  constructor <;> rfl

/-- C2 witness: receiving a proof with a fresh secret on the one-spent-row
ledger satisfies the freshness discipline and moves no state backward. -/
theorem walletOps_move_proof_state_forward_witness :
    cxSpentDb.NodupKeys ∧
    FreshOk "M" cxSpentDb (.receiveOp "tok" (.ok [cxProof "s2" 3]) 9) ∧
    ForwardDb cxSpentDb
      (applyWalletOp "M" cxSpentDb (.receiveOp "tok" (.ok [cxProof "s2" 3]) 9)) := by
  have hnd : cxSpentDb.NodupKeys := by
    show List.Pairwise _ _
    simp [cxSpentDb]
  have hfr : FreshOk "M" cxSpentDb (.receiveOp "tok" (.ok [cxProof "s2" 3]) 9) := by
    show WriteOk cxSpentDb "M" .ready [cxProof "s2" 3]
    intro p hp r hr hm hs
    rw [List.mem_singleton] at hp
    subst hp
    have hrow : r = cxRow "M" "s1" 8 .spent := by simpa [cxSpentDb] using hr
    subst hrow
    exact absurd hs (by decide)
  exact ⟨hnd, hfr,
    walletOps_move_proof_state_forward "M" cxSpentDb
      (.receiveOp "tok" (.ok [cxProof "s2" 3]) 9) hnd hfr⟩

/-- C9: updateProofState is a row-wise map keyed by the secret alone — no
mint URL in the WHERE clause — so a successful sendEcash at one mint flips
every stored row sharing a selected secret, rows of other mints included:
such a row ends spent exactly when its secret occurs among the selected
ready proofs, and is untouched otherwise. -/
theorem updateProofState_keyed_by_secret (mintUrl : String) (db : WalletDb)
    (amount : Nat) (sendFn : Nat → List ProofRow → Except String SendSplit)
    (now : Nat) (split : SendSplit) (r : ProofRow)
    (h0 : ¬ amount = 0)
    (hbal : ¬ sumRows (db.getProofs mintUrl (some .ready)) < amount)
    (hfn : sendFn amount (db.getProofs mintUrl (some .ready)) = .ok split)
    (hr : r ∈ db.proofs) (hm : ¬ r.mintUrl = mintUrl) :
    (∀ (d : WalletDb) (s : String) (st : ProofState),
        (d.updateProofState s st).proofs
          = d.proofs.map (fun x => if x.secret = s then { x with state := st } else x)) ∧
    (if r.secret ∈ secretsOf (db.getProofs mintUrl (some .ready))
       then { r with state := ProofState.spent } else r)
      ∈ (sendEcash mintUrl db amount sendFn now).1.proofs := by
  refine ⟨fun d s st => rfl, ?_⟩
  have hmu : (if r.secret ∈ secretsOf (db.getProofs mintUrl (some .ready))
      then { r with state := ProofState.spent } else r).mintUrl = r.mintUrl := by
    split <;> rfl
  simp only [sendEcash, hfn, if_neg h0, if_neg hbal]
  rw [foldSpend_eq_spendAll]
  apply saveProofs_mem_of_not_written
  · apply saveProofs_mem_of_not_written
    · rw [spendAll_eq_markSpent]
      exact List.mem_map_of_mem _ hr
    · intro p hp hcontra
      rw [hmu] at hcontra
      exact hm hcontra.1
  · intro p hp hcontra
    rw [hmu] at hcontra
    exact hm hcontra.1

/-- C9 witness: sendEcash at mint M selecting the ready proof with secret
"a" also flips mint N's inflight proof with secret "a" to spent. -/
theorem updateProofState_keyed_by_secret_witness :
    (¬ (5 : Nat) = 0) ∧
    (¬ sumRows (cxTwoMintDb.getProofs "M" (some .ready)) < 5) ∧
    (cxSendFn 5 (cxTwoMintDb.getProofs "M" (some .ready)) = .ok cxSplit) ∧
    (cxRow "N" "a" 5 .inflight ∈ cxTwoMintDb.proofs) ∧
    (¬ (cxRow "N" "a" 5 .inflight).mintUrl = "M") ∧
    ((if (cxRow "N" "a" 5 .inflight).secret
          ∈ secretsOf (cxTwoMintDb.getProofs "M" (some .ready))
        then { cxRow "N" "a" 5 .inflight with state := ProofState.spent }
        else cxRow "N" "a" 5 .inflight)
      ∈ (sendEcash "M" cxTwoMintDb 5 cxSendFn 0).1.proofs) := by
  refine ⟨by decide, by decide, rfl, by decide, by decide, ?_⟩
  exact (updateProofState_keyed_by_secret "M" cxTwoMintDb 5 cxSendFn 0 cxSplit
    (cxRow "N" "a" 5 .inflight) (by decide) (by decide) rfl (by decide) (by decide)).2

/-- C10: sendEcash and payInvoice hand the entire ready set of the
configured mint to the Protocol Client's split — their outcome depends on
the client only through its answer on that full set — and afterwards every
previously-ready proof whose secret does not reappear in the returned
proofs is spent, while any proof left ready at the mint comes from the
persisted keep (or, for payInvoice, change) proofs. -/
theorem send_pay_use_entire_ready_set (mintUrl : String) (db : WalletDb)
    (now : Nat) (amount : Nat)
    (sendFn sendFn2 : Nat → List ProofRow → Except String SendSplit)
    (split : SendSplit) (r r2 : ProofRow)
    (invoice : String) (mq : MeltQuoteResp)
    (payFn payFn2 : Nat → List ProofRow → Except String SendSplit)
    (psplit : SendSplit) (change : List CashuProof)
    (chk : Except String MeltCheckResp) (r3 r4 : ProofRow)
    (h0 : ¬ amount = 0)
    (hbal : ¬ sumRows (db.getProofs mintUrl (some .ready)) < amount)
    (hfn : sendFn amount (db.getProofs mintUrl (some .ready)) = .ok split)
    (hfn2 : sendFn2 amount (db.getProofs mintUrl (some .ready))
        = sendFn amount (db.getProofs mintUrl (some .ready)))
    (hr : r ∈ db.proofs) (hrm : r.mintUrl = mintUrl) (hrst : r.state = .ready)
    (hrk : ¬ r.secret ∈ proofSecrets split.keep)
    (hrs : ¬ r.secret ∈ proofSecrets split.send)
    (hr2 : r2 ∈ (sendEcash mintUrl db amount sendFn now).1.proofs)
    (hr2m : r2.mintUrl = mintUrl) (hr2st : r2.state = .ready)
    (hinv : ¬ invoice = "") (hmq : mq.error = none)
    (hpbal : ¬ sumRows (db.getProofs mintUrl (some .ready))
        < mq.amount + mq.feeReserve)
    (hpfn : payFn (mq.amount + mq.feeReserve) (db.getProofs mintUrl (some .ready))
        = .ok psplit)
    (hpfn2 : payFn2 (mq.amount + mq.feeReserve) (db.getProofs mintUrl (some .ready))
        = payFn (mq.amount + mq.feeReserve) (db.getProofs mintUrl (some .ready)))
    (hr3 : r3 ∈ db.proofs) (hr3m : r3.mintUrl = mintUrl) (hr3st : r3.state = .ready)
    (hr3k : ¬ r3.secret ∈ proofSecrets psplit.keep)
    (hr3s : ¬ r3.secret ∈ proofSecrets psplit.send)
    (hr3c : ¬ r3.secret ∈ proofSecrets change)
    (hr4 : r4 ∈ (payInvoice mintUrl db invoice mq payFn (.ok change) chk now).1.proofs)
    (hr4m : r4.mintUrl = mintUrl) (hr4st : r4.state = .ready) :
    sendEcash mintUrl db amount sendFn2 now = sendEcash mintUrl db amount sendFn now ∧
    { r with state := ProofState.spent }
        ∈ (sendEcash mintUrl db amount sendFn now).1.proofs ∧
    r2.secret ∈ proofSecrets split.keep ∧
    payInvoice mintUrl db invoice mq payFn2 (.ok change) chk now
        = payInvoice mintUrl db invoice mq payFn (.ok change) chk now ∧
    { r3 with state := ProofState.spent }
        ∈ (payInvoice mintUrl db invoice mq payFn (.ok change) chk now).1.proofs ∧
    (r4.secret ∈ proofSecrets psplit.keep ∨ r4.secret ∈ proofSecrets change) := by
  have heqS : (sendEcash mintUrl db amount sendFn now).1
      = ((spendAll db (secretsOf (db.getProofs mintUrl (some .ready)))).saveProofs
          split.keep mintUrl .ready now).saveProofs split.send mintUrl .inflight now := by
    simp only [sendEcash, hfn, if_neg h0, if_neg hbal]
    rw [foldSpend_eq_spendAll]
  have heqP : (payInvoice mintUrl db invoice mq payFn (.ok change) chk now).1
      = (if change = [] then
          ((spendAll db (secretsOf (db.getProofs mintUrl (some .ready)))).saveProofs
            psplit.keep mintUrl .ready now).saveProofs psplit.send mintUrl .inflight now
        else
          (((spendAll db (secretsOf (db.getProofs mintUrl (some .ready)))).saveProofs
            psplit.keep mintUrl .ready now).saveProofs psplit.send mintUrl
              .inflight now).saveProofs change mintUrl .ready now) := by
    cases chk with
    | error e =>
      simp only [payInvoice, hmq, hpfn, if_neg hinv, if_neg hpbal]
      rw [foldSpend_eq_spendAll]
    | ok mc =>
      simp only [payInvoice, hmq, hpfn, if_neg hinv, if_neg hpbal]
      rw [foldSpend_eq_spendAll]
  have hspentSend : ∀ (sp : SendSplit) (x : ProofRow), x ∈ db.proofs →
      x.mintUrl = mintUrl → x.state = .ready →
      ¬ x.secret ∈ proofSecrets sp.keep → ¬ x.secret ∈ proofSecrets sp.send →
      { x with state := ProofState.spent }
        ∈ (((spendAll db (secretsOf (db.getProofs mintUrl (some .ready)))).saveProofs
            sp.keep mintUrl .ready now).saveProofs sp.send mintUrl .inflight now).proofs := by
    intro sp x hx hxm hxst hxk hxs
    have hxsec : x.secret ∈ secretsOf (db.getProofs mintUrl (some .ready)) :=
      List.mem_map_of_mem _ (mem_getProofs_some.mpr ⟨hx, hxm, hxst⟩)
    apply saveProofs_mem_of_not_written
    · apply saveProofs_mem_of_not_written
      · rw [spendAll_eq_markSpent]
        have hgx : ({ x with state := ProofState.spent })
            = (fun y => if y.secret ∈ secretsOf (db.getProofs mintUrl (some .ready))
                then { y with state := ProofState.spent } else y) x := by
          simp [hxsec]
        rw [hgx]
        exact List.mem_map_of_mem _ hx
      · intro p hp hcontra
        apply hxk
        have hxp : x.secret = p.secret := hcontra.2
        rw [hxp]
        exact List.mem_map_of_mem _ hp
    · intro p hp hcontra
      apply hxs
      have hxp : x.secret = p.secret := hcontra.2
      rw [hxp]
      exact List.mem_map_of_mem _ hp
  have hreadySend : ∀ (sp : SendSplit) (y : ProofRow),
      y ∈ (((spendAll db (secretsOf (db.getProofs mintUrl (some .ready)))).saveProofs
          sp.keep mintUrl .ready now).saveProofs sp.send mintUrl .inflight now).proofs →
      y.mintUrl = mintUrl → y.state = .ready → y.secret ∈ proofSecrets sp.keep := by
    intro sp y hy hym hyst
    rcases saveProofs_mem_cases hy with h1 | ⟨p, hp, rfl⟩
    · rcases saveProofs_mem_cases h1 with h2 | ⟨p, hp, rfl⟩
      · rw [spendAll_eq_markSpent] at h2
        simp only [markSpent] at h2
        rcases List.mem_map.mp h2 with ⟨x, hx, hxe⟩
        by_cases hxs : x.secret ∈ secretsOf (db.getProofs mintUrl (some .ready))
        · rw [if_pos hxs] at hxe
          have hspent : y.state = ProofState.spent := by
            rw [← hxe]
          rw [hyst] at hspent
          exact absurd hspent (by decide)
        · rw [if_neg hxs] at hxe
          subst hxe
          exact absurd
            (List.mem_map_of_mem _ (mem_getProofs_some.mpr ⟨hx, hym, hyst⟩)) hxs
      · exact List.mem_map_of_mem _ hp
    · exact absurd hyst (by simp [WalletDb.rowOfProof])
  refine ⟨?_, ?_, ?_, ?_, ?_, ?_⟩
  · simp only [sendEcash]
    rw [hfn2]
  · rw [heqS]
    exact hspentSend split r hr hrm hrst hrk hrs
  · rw [heqS] at hr2
    exact hreadySend split r2 hr2 hr2m hr2st
  · simp only [payInvoice]
    rw [hpfn2]
  · rw [heqP]
    split
    · exact hspentSend psplit r3 hr3 hr3m hr3st hr3k hr3s
    · apply saveProofs_mem_of_not_written
      · exact hspentSend psplit r3 hr3 hr3m hr3st hr3k hr3s
      · intro p hp hcontra
        apply hr3c
        have hxp : r3.secret = p.secret := hcontra.2
        rw [hxp]
        exact List.mem_map_of_mem _ hp
  · rw [heqP] at hr4
    split at hr4
    · exact Or.inl (hreadySend psplit r4 hr4 hr4m hr4st)
    · rcases saveProofs_mem_cases hr4 with h1 | ⟨p, hp, rfl⟩
      · exact Or.inl (hreadySend psplit r4 h1 hr4m hr4st)
      · exact Or.inr (List.mem_map_of_mem _ hp)

/-- C10 witness: on a two-ready-proof ledger, a 5-sat send and a 3+1-sat
invoice payment both consume the whole 8-sat ready set; the untouched-secret
proof "a" ends spent and the only ready survivors stem from keep/change. -/
theorem send_pay_use_entire_ready_set_witness :
    sendEcash "M" cxTwoReadyDb 5 cxSendFn 0 = sendEcash "M" cxTwoReadyDb 5 cxSendFn 0 ∧
    { cxRow "M" "a" 4 .ready with state := ProofState.spent }
        ∈ (sendEcash "M" cxTwoReadyDb 5 cxSendFn 0).1.proofs ∧
    (WalletDb.rowOfProof "M" (cxProof "k" 2) .ready 0).secret
        ∈ proofSecrets cxSplit.keep ∧
    payInvoice "M" cxTwoReadyDb "inv" ⟨none, "mq1", 3, 1⟩ cxSendFn
        (.ok [cxProof "c" 1]) (.ok ⟨.PAID, some "pi"⟩) 0
      = payInvoice "M" cxTwoReadyDb "inv" ⟨none, "mq1", 3, 1⟩ cxSendFn
        (.ok [cxProof "c" 1]) (.ok ⟨.PAID, some "pi"⟩) 0 ∧
    { cxRow "M" "a" 4 .ready with state := ProofState.spent }
        ∈ (payInvoice "M" cxTwoReadyDb "inv" ⟨none, "mq1", 3, 1⟩ cxSendFn
            (.ok [cxProof "c" 1]) (.ok ⟨.PAID, some "pi"⟩) 0).1.proofs ∧
    ((WalletDb.rowOfProof "M" (cxProof "c" 1) .ready 0).secret
        ∈ proofSecrets cxSplit.keep ∨
     (WalletDb.rowOfProof "M" (cxProof "c" 1) .ready 0).secret
        ∈ proofSecrets [cxProof "c" 1]) :=
  send_pay_use_entire_ready_set "M" cxTwoReadyDb 0 5 cxSendFn cxSendFn cxSplit
    (cxRow "M" "a" 4 .ready) (WalletDb.rowOfProof "M" (cxProof "k" 2) .ready 0)
    "inv" ⟨none, "mq1", 3, 1⟩ cxSendFn cxSendFn cxSplit [cxProof "c" 1]
    (.ok ⟨.PAID, some "pi"⟩)
    (cxRow "M" "a" 4 .ready) (WalletDb.rowOfProof "M" (cxProof "c" 1) .ready 0)
    (by decide) (by decide) rfl rfl
    (by decide) (by decide) (by decide) (by decide) (by decide)
    (by decide) (by decide) (by decide)
    (by decide) rfl (by decide) rfl rfl
    (by decide) (by decide) (by decide) (by decide) (by decide) (by decide)
    (by decide) (by decide) (by decide)

end Nutoff
